import Mathlib

/-!
Shallow embedding of the voice-generator repository (src/app.py and
src/models/higgs_audio.py) and proofs about its specification claims.

Strings from the Python code are modelled as `List Char`; Python ints as
`ℤ`/`ℕ`; Python floats as exact rationals `ℚ` (sample values as `ℝ`);
fallible code returns `Option`/`Except`; filesystem state is passed
explicitly.
-/

namespace VoiceGen

/-! ## Basic string helpers (Python `str` operations used by the code) -/

/-- Test for the character `'.'` being absent: `neDot c = true` iff `c ≠ '.'`. -/
def neDot (c : Char) : Bool := !(c == '.')

/-- Prefix test: `listStarts p s = true` iff `p` is a prefix of `s`
(Python `s.startswith(p)`). -/
def listStarts : List Char → List Char → Bool
  | [], _ => true
  | _ :: _, [] => false
  | p :: ps, c :: cs => p == c && listStarts ps cs

/-- Suffix test (Python `s.endswith(suf)`). -/
def listEndsWith (s suf : List Char) : Bool :=
  listStarts suf.reverse s.reverse

/-- Python `s.strip()`: drop whitespace from both ends. -/
def pyStrip (s : List Char) : List Char :=
  ((s.dropWhile Char.isWhitespace).reverse.dropWhile Char.isWhitespace).reverse

/-- Does the list begin with an underscore? (helper for the `"__"` scan). -/
def firstIsUnd : List Char → Bool
  | c :: _ => c == '_'
  | [] => false

/-- Python `s.split("__", 1)` when a separator exists: scan left to right for
the first occurrence of two consecutive underscores and split there; `none`
when `"__"` does not occur in the list. -/
def splitOn2 : List Char → Option (List Char × List Char)
  | [] => none
  | c :: cs =>
    if c == '_' && firstIsUnd cs then some ([], cs.tail)
    else (splitOn2 cs).map (fun q => (c :: q.1, q.2))

/-- Python `s.replace("__", "_")`: non-overlapping left-to-right replacement
of each `"__"` by `"_"`, as used to sanitise the text preview. -/
def replaceDD : List Char → List Char
  | '_' :: '_' :: rest => '_' :: replaceDD rest
  | c :: rest => c :: replaceDD rest
  | [] => []

/-- The stem of `os.path.splitext` on a bare filename (no `/` present): split
at the last `'.'`, but only when some character strictly before that dot is
not itself a dot (CPython's leading-dot rule for hidden files); otherwise the
whole name is the stem. -/
def splitextStem (f : List Char) : List Char :=
  let d := (f.reverse).dropWhile neDot
  if d = [] then f
  else if d.tail.any neDot then d.tail.reverse else f

/-! ## ArtifactStore: filename encoding and decoding (src/app.py) -/

/-- Artifact filename construction from `generate` (src/app.py line 194):
`f"{out_id}__{preview}.wav" if preview else f"{out_id}.wav"`. -/
def encodeName (id p : List Char) : List Char :=
  if p = [] then id ++ ".wav".toList
  else id ++ "__".toList ++ p ++ ".wav".toList

/-- Artifact filename decoding from `list_history` (src/app.py lines 89-91):
`base = splitext(f)[0]; parts = base.split("__", 1)`; the identifier is
`parts[0]` and the preview is `parts[1]` when the separator occurs, else
the empty string. -/
def decodeName (f : List Char) : List Char × List Char :=
  let base := splitextStem f
  match splitOn2 base with
  | some q => q
  | none => (base, [])

/-! ## Voice-sample resolution and the generate route (src/app.py) -/

/-- Voice-sample lookup from `generate` (src/app.py lines 171-180): keep the
directory-listing entries whose filename starts with the identifier and take
the first such entry, if any. -/
def resolveVoice (dir : List (List Char)) (vid : List Char) : Option (List Char) :=
  (dir.filter (fun f => listStarts vid f)).head?

/-- What the `/generate` route returns on success (identifier, filename and
the resolved voice-sample path that conditions synthesis). -/
structure GenResponse where
  id : List Char
  filename : List Char
  voicePath : Option (List Char)
  deriving DecidableEq

/-- Newline-to-space used in the preview (`text.replace("\n", " ")`). -/
def nlToSpace (c : Char) : Char :=
  if c == '\n' then ' ' else c

/-- The preview computation of `generate` (src/app.py lines 190-191):
`preview = text.replace("\n", " ")[:50].strip()` then
`preview = preview.replace("__", "_")`, applied to the stripped text. -/
def mkPreview (t : List Char) : List Char :=
  replaceDD (pyStrip ((t.map nlToSpace).take 50))

/-- The `/generate` route (src/app.py lines 150-213), up to the synthesis
call: validation of the text, voice-sample resolution (`if voice_id:` treats
the empty string as absent), preview and filename construction. The fresh
UUID `outId` is an input (randomness injected by the caller). Errors are the
HTTP status codes the route raises. -/
def generate (voiceDir : List (List Char)) (outId : List Char)
    (text : List Char) (voiceId : Option (List Char)) :
    Except ℕ GenResponse :=
  let t := pyStrip text
  if t = [] then .error 400
  else if 5000 < t.length then .error 400
  else
    let vpath := match voiceId with
      | none => none
      | some v => if v = [] then none else resolveVoice voiceDir v
    let preview := mkPreview t
    .ok { id := outId, filename := encodeName outId preview, voicePath := vpath }

/-! ## GenerationConfig and the placeholder synthesizer
(src/models/higgs_audio.py, `GenerationConfig` and `_generate_placeholder_sync`) -/

/-- The `GenerationConfig` dataclass (src/models/higgs_audio.py lines 39-48).
Floats are modelled as exact rationals. -/
structure GenerationConfig where
  temperature : ℚ := 7 / 10
  speed : ℚ := 1
  emotion : List Char := "neutral".toList
  sample_rate : ℤ := 24000
  seed : Option ℤ := none
  deriving DecidableEq

/-- Python `int(q)` on a number: truncation toward zero. -/
def pyInt (q : ℚ) : ℤ :=
  if 0 ≤ q then ⌊q⌋ else ⌈q⌉

/-- The clamped placeholder duration (src/models/higgs_audio.py line 207):
`min(max(len(text) * 0.1, 1.0), 10.0)`, for a text of length `L`. -/
def clampDur (L : ℕ) : ℚ :=
  min (max ((L : ℚ) * (1 / 10)) 1) 10

/-- Sample count `int(sr * duration_sec)` of the placeholder, as a `ℕ`
(the code errors out before building the waveform when it is negative). -/
def sampleCount (sr : ℤ) (L : ℕ) : ℕ :=
  (pyInt ((sr : ℚ) * clampDur L)).toNat

/-- Fade ramp length `int(0.1 * sr)` (src/models/higgs_audio.py line 214). -/
def fadeLen (sr : ℤ) : ℕ :=
  (pyInt ((sr : ℚ) * (1 / 10))).toNat

/-- One entry of `np.linspace(0.0, 1.0, fl)` (endpoint included):
`j / (fl - 1)` for `fl ≥ 2`, and `0.0` for the single-entry ramp. -/
noncomputable def fadeVal (fl j : ℕ) : ℝ :=
  if fl = 1 then 0 else (j : ℝ) / ((fl : ℝ) - 1)

/-- The ramp `np.linspace(0.0, 1.0, fl)` as a list. -/
noncomputable def linspace01 (fl : ℕ) : List ℝ :=
  (List.range fl).map (fadeVal fl)

/-- The raw sine sample `0.15 * sin(2π · 440 · t_i)` where
`t = np.linspace(0, duration_sec, n, endpoint=False)` gives
`t_i = i · duration / n` (src/models/higgs_audio.py lines 209-213). -/
noncomputable def baseSample (dur : ℚ) (n i : ℕ) : ℝ :=
  0.15 * Real.sin (2 * Real.pi * 440 * ((i : ℝ) * (dur : ℝ) / (n : ℝ)))

/-- The waveform before the fades are applied. -/
noncomputable def baseWave (dur : ℚ) (n : ℕ) : List ℝ :=
  (List.range n).map (baseSample dur n)

/-- In-place numpy multiplication `t *= f` of two 1-d arrays: defined when
the shapes match, broadcast when the factor has a single entry, and a
broadcast error (`none`) otherwise. -/
noncomputable def mulSliceVals (t f : List ℝ) : Option (List ℝ) :=
  if t.length = f.length then some (List.zipWith (fun a b => a * b) t f)
  else if f.length = 1 then some (t.map (fun a => a * f.headD 0))
  else none

/-- The slice update `waveform[:fl] *= fade` : multiply the head slice, keep the rest. -/
noncomputable def applyFadeIn (w fade : List ℝ) (fl : ℕ) : Option (List ℝ) :=
  (mulSliceVals (w.take fl) fade).map (fun z => z ++ w.drop fl)

/-- The slice update `waveform[-fl:] *= fade[::-1]` : Python's `-0` start index selects the
whole array, so for `fl = 0` the target slice starts at index `0`; otherwise
it is the last `fl` entries. -/
noncomputable def applyFadeOut (w fade : List ℝ) (fl : ℕ) : Option (List ℝ) :=
  let s := if fl = 0 then 0 else w.length - fl
  (mulSliceVals (w.drop s) fade.reverse).map (fun z => w.take s ++ z)

/-- Result of one placeholder synthesis. -/
structure PlaceholderResult where
  duration : ℚ
  sampleRate : ℤ
  samples : List ℝ

/-- The placeholder waveform computation of `_generate_placeholder_sync`
(src/models/higgs_audio.py lines 199-217), everything before the file write:
clamp the duration, build the sine tone over `int(sr * duration)` samples,
and apply the linear fade-in and fade-out slices. `none` models a numpy
error (negative sample count in `linspace`, or a broadcast failure in the
in-place slice multiplications). -/
noncomputable def synthPlaceholder (text : List Char) (cfg : GenerationConfig) :
    Option PlaceholderResult :=
  let dur := clampDur text.length
  let n := pyInt ((cfg.sample_rate : ℚ) * dur)
  if n < 0 then none
  else
    let N := n.toNat
    let fl := fadeLen cfg.sample_rate
    let fade := linspace01 fl
    (applyFadeIn (baseWave dur N) fade fl).bind (fun w1 =>
      (applyFadeOut w1 fade fl).map (fun w2 => ⟨dur, cfg.sample_rate, w2⟩))

/-! ## Filesystem model (shared by the persistence and download claims) -/

/-- A filesystem path as a list of components. -/
abbrev FsPath : Type := List (List Char)

/-- Contents of one WAV file: the sample rate and the samples written. -/
abbrev WavData : Type := ℤ × List ℝ

/-- Explicit filesystem state: the directories that exist and the regular
files that exist, each with its contents. -/
structure Fs where
  dirs : List FsPath
  files : List (FsPath × WavData)

/-- The paths at which a regular file exists. -/
def Fs.fileNames (fs : Fs) : List FsPath :=
  fs.files.map Prod.fst

/-- Directory creation `os.makedirs(d, exist_ok=True)`: record the directory (ancestor creation
is irrelevant to the claims and elided; `exist_ok` means re-adding is fine). -/
def Fs.mkdir (fs : Fs) (d : FsPath) : Fs :=
  { fs with dirs := if d ∈ fs.dirs then fs.dirs else fs.dirs ++ [d] }

/-- Create or truncate-and-replace the file at `p` with data `d`
(what `open(p, "wb")` followed by a write leaves behind). -/
def Fs.put (fs : Fs) (p : FsPath) (d : WavData) : Fs :=
  { fs with files := (fs.files.filter (fun e => !(e.1 = p : Bool))) ++ [(p, d)] }

/-- Look up the contents of the file at `p`. -/
def Fs.get (fs : Fs) (p : FsPath) : Option WavData :=
  (fs.files.filter (fun e => (e.1 = p : Bool))).head?.map Prod.snd

/-- How far a `scipy.io.wavfile.write(path, sr, data)` call gets: it opens
the destination for writing (creating or truncating it) and then streams the
data, so an I/O failure after `k` samples leaves a partial file in place. -/
inductive WriteOutcome where
  | ok
  | failAt (k : ℕ)
  deriving DecidableEq

/-- A call `wavfile.write(p, sr, data)` under a given outcome: the boolean reports
whether the call completed (an incomplete call raises in the Python code). -/
def wavfileWrite (fs : Fs) (p : FsPath) (d : WavData) (o : WriteOutcome) :
    Fs × Bool :=
  match o with
  | .ok => (fs.put p d, true)
  | .failAt k => (fs.put p (d.1, d.2.take k), false)

/-- The effectful part of `_generate_placeholder_sync`
(src/models/higgs_audio.py lines 199-220): compute the waveform, then
`os.makedirs(os.path.dirname(output_path), exist_ok=True)`, then
`wavfile.write(output_path, sr, waveform)` straight to the final path.
The boolean reports whether the call returned without raising. -/
noncomputable def generatePlaceholderSyncFs (text : List Char)
    (cfg : GenerationConfig) (outPath : FsPath) (fs : Fs) (o : WriteOutcome) :
    Fs × Bool :=
  match synthPlaceholder text cfg with
  | none => (fs, false)
  | some res =>
    wavfileWrite (fs.mkdir outPath.dropLast) outPath
      (res.sampleRate, res.samples) o

/-! ## History listing (src/app.py `list_history`) -/

/-- One entry of the artifact directory listing, with its modification time
(`os.path.getmtime`, a float modelled as `ℚ`) and whether it is a regular
file (`os.path.isfile`). -/
structure DirEntry where
  name : List Char
  mtime : ℚ
  isFile : Bool

/-- The filter of src/app.py lines 74-79:
`os.path.isfile(...) and f.lower().endswith(".wav")`. -/
def wavFilter (e : DirEntry) : Bool :=
  e.isFile && listEndsWith (e.name.map Char.toLower) ".wav".toList

/-- Descending-by-mtime comparison used by
`sorted(..., key=getmtime, reverse=True)`. -/
def newerEq (a b : DirEntry) : Bool :=
  decide (b.mtime ≤ a.mtime)

/-- The files `list_history` will report: the `.wav` regular files of the
artifact directory, sorted by modification time newest first (Python's
stable sort with `reverse=True`), truncated to `limit`. -/
def historyFiles (entries : List DirEntry) (limit : ℕ) : List DirEntry :=
  ((entries.filter wavFilter).mergeSort newerEq).take limit

/-- One history item (the `HistoryItem` pydantic model of src/app.py). -/
structure HistoryItem where
  id : List Char
  filename : List Char
  text_preview : List Char
  timestamp : List Char
  duration_seconds : Option ℚ

/-- Building one `HistoryItem` from a file (src/app.py lines 84-101): the
timestamp is `datetime.fromtimestamp(getmtime(path)).isoformat(timespec="seconds")`,
modelled through the injected formatter `iso`; identifier and preview are
decoded from the filename. -/
def mkItem (iso : ℚ → List Char) (e : DirEntry) : HistoryItem :=
  { id := (decodeName e.name).1
    filename := e.name
    text_preview := (decodeName e.name).2
    timestamp := iso e.mtime
    duration_seconds := none }

/-- The function `list_history` (src/app.py lines 63-103): an absent artifact directory
(`not os.path.isdir`) yields the empty list; otherwise the sorted, truncated
`.wav` files are decoded into items. -/
def list_history (iso : ℚ → List Char) (dir : Option (List DirEntry))
    (limit : ℕ) : List HistoryItem :=
  match dir with
  | none => []
  | some entries => (historyFiles entries limit).map (mkItem iso)

/-- The `/history` route (src/app.py lines 229-236) calls
`list_history(limit=20)`. -/
def get_history (iso : ℚ → List Char) (dir : Option (List DirEntry)) :
    List HistoryItem :=
  list_history iso dir 20

/-! ## Backend state (src/models/higgs_audio.py `HiggsAudioModel`) -/

/-- The mutable attributes of `HiggsAudioModel` that govern which backend is
in effect. -/
structure ModelState where
  use_real_model : Bool
  model_loaded : Bool
  generator : Bool
  deriving DecidableEq

/-- The constructor `HiggsAudioModel.__init__` (src/models/higgs_audio.py lines 59-81):
`use_real_model` starts as `HIGGS_AUDIO_AVAILABLE`; a failed `_load_model`
clears it permanently; a successful load sets the generator and the loaded
flag. -/
def initModel (available loadOk : Bool) : ModelState :=
  if available then
    if loadOk then ⟨true, true, true⟩ else ⟨false, false, false⟩
  else ⟨false, false, false⟩

/-- Which synthesis path one `generate_async` call took. -/
inductive SynthPath where
  | real
  | realFallback
  | placeholder
  deriving DecidableEq

/-- One `generate_async` call (src/models/higgs_audio.py lines 116-135 and
137-197): dispatch on `self.use_real_model and self.generator`; a failing
real call falls back to the placeholder for that call only. No attribute of
the model is assigned anywhere in these methods, so the state is returned
unchanged. -/
def generateStep (s : ModelState) (realCallOk : Bool) : ModelState × SynthPath :=
  if s.use_real_model && s.generator then
    if realCallOk then (s, .real) else (s, .realFallback)
  else (s, .placeholder)

/-- Run a sequence of `generate_async` calls, collecting the paths taken. -/
def runGen (s : ModelState) : List Bool → ModelState × List SynthPath
  | [] => (s, [])
  | o :: os =>
    let r := generateStep s o
    let rest := runGen r.1 os
    (rest.1, r.2 :: rest.2)

/-! ## Worker-pool scheduler (the `ThreadPoolExecutor(max_workers=1)` calls
of src/models/higgs_audio.py lines 144-150 and 228-241) -/

/-- Scheduler state: for each pending or running synthesis task the pair
`(executor, request)` identifying which worker pool it was submitted to. -/
structure ExecState where
  queued : List (ℕ × ℕ)
  running : List (ℕ × ℕ)
  done : List (ℕ × ℕ)
  deriving DecidableEq

/-- The scheduler with nothing submitted. -/
def initExec : ExecState := ⟨[], [], []⟩

/-- Remove the first queued task of executor `e` (FIFO order). -/
def takeFirst (e : ℕ) : List (ℕ × ℕ) → Option ((ℕ × ℕ) × List (ℕ × ℕ))
  | [] => none
  | x :: xs =>
    if x.1 = e then some (x, xs)
    else (takeFirst e xs).map (fun r => (r.1, x :: r.2))

/-- Scheduler actions: submitting a task to a pool, a pool's single worker
starting its next queued task, and a running task finishing. -/
inductive Act where
  | submit (e t : ℕ)
  | start (e : ℕ)
  | finish (e t : ℕ)
  deriving DecidableEq

/-- One scheduler action. `start e` is only enabled when pool `e` has no
running task (each `ThreadPoolExecutor(max_workers=1)` has a single worker
thread) and takes the pool's first queued task. `none` = not enabled. -/
def applyAct (s : ExecState) : Act → Option ExecState
  | .submit e t => some { s with queued := s.queued ++ [(e, t)] }
  | .start e =>
    if s.running.any (fun r => r.1 = e) then none
    else (takeFirst e s.queued).map
      (fun r => { s with queued := r.2, running := s.running ++ [r.1] })
  | .finish e t =>
    if (e, t) ∈ s.running then
      some { s with running := s.running.filter (fun r => !(r = (e, t) : Bool))
                    done := s.done ++ [(e, t)] }
    else none

/-- Run a list of scheduler actions from a state. -/
def runActs (s : ExecState) : List Act → Option ExecState
  | [] => some s
  | a :: as =>
    match applyAct s a with
    | none => none
    | some s2 => runActs s2 as

/-- How the code wires requests to pools: each `generate_async` call builds
its own fresh `ThreadPoolExecutor(max_workers=1)`, so request `r`'s synthesis
task is submitted to its own pool `r`. -/
def codeSubmit (r : ℕ) : Act := .submit r r

/-- Tasks of pool `e` currently running. -/
def runningOn (s : ExecState) (e : ℕ) : List (ℕ × ℕ) :=
  s.running.filter (fun r => (r.1 = e : Bool))

/-! ## The download route (src/app.py lines 216-226) -/

/-- Python `os.path.basename` on a POSIX path: the characters after the last `'/'`. -/
def basenameChars (s : List Char) : List Char :=
  (s.reverse.takeWhile (fun c => !(c == '/'))).reverse

/-- A path component that names an ordinary directory entry: non-empty and
neither of the special components `"."` and `".."`. -/
def isNormalComp (c : List Char) : Bool :=
  !(c = [] : Bool) && !(c = ".".toList : Bool) && !(c = "..".toList : Bool)

/-- One step of path resolution: empty components and `"."` are skipped,
`".."` pops one component, and an ordinary component is appended. -/
def normStep (acc : List (List Char)) (c : List Char) : List (List Char) :=
  if c = [] ∨ c = ".".toList then acc
  else if c = "..".toList then acc.dropLast
  else acc ++ [c]

/-- How the operating system resolves a component path during lookup. -/
def normalizePath (p : List (List Char)) : List (List Char) :=
  p.foldl normStep []

/-- The `/download/{filename}` route (src/app.py lines 216-226):
`safe_name = os.path.basename(filename)`, `path = join(GENERATED_DIR, safe_name)`,
404 unless `os.path.isfile(path)`, else the file at `path` is served.
`genDir` is the component path of the generated-audio directory. -/
def download (fs : Fs) (genDir : FsPath) (filename : List Char) :
    Except ℕ FsPath :=
  let b := basenameChars filename
  let p := normalizePath (genDir ++ [b])
  if p ∈ fs.fileNames then .ok p else .error 404

/-! ## Derived vocabulary and concrete instances used by the statements -/

/-- Per-pool mutual exclusion: each worker pool has at most one task running. -/
def serialInv (s : ExecState) : Prop :=
  ∀ e, (runningOn s e).length ≤ 1

/-- Closed form of one placeholder sample after both fades: the `0.15`-amplitude
`440` Hz sine value at `t_i = i·dur/N`, scaled by the fade-in ramp on the first
`fl` samples and by the fade-out ramp on the last `fl`. -/
noncomputable def placeholderSampleFormula (dur : ℚ) (N fl i : ℕ) : ℝ :=
  if i < fl then baseSample dur N i * fadeVal fl i
  else if N - fl ≤ i then baseSample dur N i * fadeVal fl (N - 1 - i)
  else baseSample dur N i

/-- The waveform after the fade-in slice multiplication
`waveform[:fl] *= fade`, written out. -/
noncomputable def fadeInWave (base fade : List ℝ) (fl : ℕ) : List ℝ :=
  List.zipWith (fun a b => a * b) (base.take fl) fade ++ base.drop fl

/-- The waveform after both slice multiplications: the fade-in above and then
`waveform[-fl:] *= fade[::-1]` (for `fl ≥ 1` the tail slice is the last `fl`
entries). -/
noncomputable def fadedWave (base fade : List ℝ) (fl : ℕ) : List ℝ :=
  (fadeInWave base fade fl).take ((fadeInWave base fade fl).length - fl) ++
    List.zipWith (fun a b => a * b)
      ((fadeInWave base fade fl).drop ((fadeInWave base fade fl).length - fl)) fade.reverse

/-- The empty filesystem. -/
def emptyFs : Fs := ⟨[], []⟩

/-- A config whose sample rate keeps the fade ramp empty (`int(0.1·9) = 0`). -/
def cfg9 : GenerationConfig := { sample_rate := 9 }

/-- A small valid config (10 Hz keeps concrete waveforms tiny). -/
def cfg10 : GenerationConfig := { sample_rate := 10 }

/-- A concrete output path used in concrete runs. -/
def path1 : FsPath := ["outputs".toList, "audio".toList, "f.wav".toList]

end VoiceGen

namespace VoiceGen

/-! # Theorems -/

/-! ## C3: filename encode/decode round-trip -/

lemma wav_toList : ".wav".toList = ['.', 'w', 'a', 'v'] := rfl

lemma dd_toList : "__".toList = ['_', '_'] := rfl

lemma splitOn2_cons (c : Char) (cs : List Char) :
    splitOn2 (c :: cs) =
      if c == '_' && firstIsUnd cs then some ([], cs.tail)
      else (splitOn2 cs).map (fun q => (c :: q.1, q.2)) := rfl

/-- Splitting at an explicit first separator: when `a` contains no `"__"` and
does not end in `'_'`, the scan finds the separator exactly at the end of `a`. -/
lemma splitOn2_append_sep (a b : List Char) (ha : splitOn2 a = none)
    (hend : a.getLast? ≠ some '_') :
    splitOn2 (a ++ '_' :: '_' :: b) = some (a, b) := by
  induction a with
  | nil => simp [splitOn2, firstIsUnd]
  | cons c cs ih =>
    rw [splitOn2_cons] at ha
    by_cases hc : (c == '_' && firstIsUnd cs) = true
    · rw [if_pos hc] at ha
      exact absurd ha (by simp)
    · rw [if_neg hc] at ha
      have hcs : splitOn2 cs = none := by
        cases hcs2 : splitOn2 cs with
        | none => rfl
        | some q => rw [hcs2] at ha; simp at ha
      cases cs with
      | nil =>
        have hcne : ¬ c = '_' := by simpa using hend
        show splitOn2 (c :: '_' :: '_' :: b) = some ([c], b)
        rw [splitOn2_cons]
        rw [if_neg (by simp [firstIsUnd, hcne])]
        simp [splitOn2, firstIsUnd]
      | cons d ds =>
        have hlast : (d :: ds).getLast? ≠ some '_' := by
          rwa [List.getLast?_cons_cons] at hend
        have hrec := ih hcs hlast
        show splitOn2 (c :: ((d :: ds) ++ '_' :: '_' :: b)) = some (c :: (d :: ds), b)
        rw [splitOn2_cons]
        rw [if_neg
          (show ¬(c == '_' && firstIsUnd ((d :: ds) ++ '_' :: '_' :: b)) = true from hc)]
        rw [hrec]
        rfl

/-- The stem of `x ++ ".wav"` is `x` whenever `x` has a non-dot character. -/
lemma splitextStem_append_wav (x : List Char) (hx : x.any neDot = true) :
    splitextStem (x ++ ".wav".toList) = x := by
  have h1 : (x ++ ".wav".toList).reverse = 'v' :: 'a' :: 'w' :: '.' :: x.reverse := by
    rw [wav_toList, List.reverse_append]
    rfl
  have h2 : List.dropWhile neDot ('v' :: 'a' :: 'w' :: '.' :: x.reverse) =
      '.' :: x.reverse := by
    simp [List.dropWhile_cons, neDot]
  simp only [splitextStem, h1, h2]
  rw [if_neg (by simp)]
  rw [List.tail_cons]
  rw [if_pos (by rw [List.any_reverse]; exact hx)]
  exact List.reverse_reverse x

/-- C3, amended: decoding inverts encoding for identifiers that contain no
`"__"`, do not end in `'_'`, and contain a non-dot character (with the
claim's constraints on the preview). -/
theorem c3_roundtrip (id p : List Char) (hid : splitOn2 id = none)
    (hend : id.getLast? ≠ some '_') (hdot : id.any neDot = true)
    (hlen : p.length ≤ 50) (hp : splitOn2 p = none) :
    decodeName (encodeName id p) = (id, p) := by
  by_cases hpe : p = []
  · subst hpe
    have he : encodeName id [] = id ++ ".wav".toList := by simp [encodeName]
    rw [he]
    simp only [decodeName]
    rw [splitextStem_append_wav id hdot, hid]
  · have he : encodeName id p = id ++ ['_', '_'] ++ p ++ ".wav".toList := by
      simp [encodeName, hpe, dd_toList]
    rw [he]
    simp only [decodeName]
    have hx : ((id ++ ['_', '_']) ++ p).any neDot = true := by
      apply List.any_eq_true.mpr
      exact ⟨'_', by simp, rfl⟩
    have hassoc : (id ++ ['_', '_']) ++ p = id ++ '_' :: '_' :: p := by
      rw [List.append_assoc]
      rfl
    have hstem : splitextStem ((id ++ ['_', '_']) ++ p ++ ".wav".toList) =
        id ++ '_' :: '_' :: p := by
      rw [← hassoc]
      exact splitextStem_append_wav _ hx
    rw [show id ++ ['_', '_'] ++ p ++ ".wav".toList =
          ((id ++ ['_', '_']) ++ p) ++ ".wav".toList from rfl]
    rw [hstem, splitOn2_append_sep id p hid hend]

/-- C3 counterexample: for the identifier `"a__b"` (allowed by the claim,
which constrains only the preview) and the empty preview, decoding the
encoded filename yields `("a", "b")`, not the original pair. -/
theorem c3_counterexample :
    decodeName (encodeName ['a', '_', '_', 'b'] []) = (['a'], ['b']) ∧
    (['a'], ['b']) ≠ ((['a', '_', '_', 'b'] : List Char), ([] : List Char)) := by
  constructor
  · decide
  · decide

/-- Witness: the amended round-trip at the concrete pair `("abc", "hi")`. -/
theorem c3_witness :
    decodeName (encodeName ['a', 'b', 'c'] ['h', 'i']) = (['a', 'b', 'c'], ['h', 'i']) :=
  c3_roundtrip ['a', 'b', 'c'] ['h', 'i'] (by decide) (by decide) (by decide)
    (by decide) (by decide)

/-! ## C9: placeholder determinism -/

/-- C9: the placeholder synthesis is a deterministic function of the text and
the config — the embedding of `_generate_placeholder_sync` takes no
randomness (no RNG appears in the source), so equal inputs give identical
waveforms. -/
theorem c9_deterministic (t1 t2 : List Char) (c1 c2 : GenerationConfig)
    (ht : t1 = t2) (hc : c1 = c2) :
    synthPlaceholder t1 c1 = synthPlaceholder t2 c2 := by
  rw [ht, hc]

/-- Witness: two calls on the text `"hi"` with the default config agree. -/
theorem c9_witness :
    synthPlaceholder ['h', 'i'] {} = synthPlaceholder ['h', 'i'] {} :=
  c9_deterministic ['h', 'i'] ['h', 'i'] {} {} rfl rfl

/-! ## C8: the backend downgrade is one-way -/

/-- C8: once the wrapper is in placeholder mode (`use_real_model = false`),
no sequence of `generate_async` calls — successful or failing — returns it
to the real-model state, and every such call takes the placeholder path. -/
theorem c8_one_way (s : ModelState) (os : List Bool)
    (h : s.use_real_model = false) :
    (runGen s os).1.use_real_model = false ∧
    ∀ p ∈ (runGen s os).2, p = SynthPath.placeholder := by
  induction os generalizing s with
  | nil =>
    exact ⟨h, by simp [runGen]⟩
  | cons o os ih =>
    have hstep : generateStep s o = (s, SynthPath.placeholder) := by
      simp [generateStep, h]
    have hrec := ih s h
    constructor
    · simpa [runGen, hstep] using hrec.1
    · intro p hp
      simp only [runGen, hstep] at hp
      rcases List.mem_cons.mp hp with h1 | h2
      · exact h1
      · exact hrec.2 p h2

/-- Witness: from the placeholder state, a run with one successful and one
failing call stays in placeholder mode. -/
theorem c8_witness :
    (runGen ⟨false, false, false⟩ [true, false]).1.use_real_model = false ∧
    ∀ p ∈ (runGen ⟨false, false, false⟩ [true, false]).2, p = SynthPath.placeholder :=
  c8_one_way ⟨false, false, false⟩ [true, false] rfl

/-! ## C7: voice-sample resolution -/

/-- C7: a missing voice sample is a soft miss (resolution returns `none`
exactly when no filename starts with the identifier, and the `/generate`
route then succeeds with no reference audio), and with one or more matches
the first match in directory-listing order is chosen. -/
theorem c7_voice_resolution (dir : List (List Char)) (vid : List Char) :
    (resolveVoice dir vid = none ↔ ∀ f ∈ dir, listStarts vid f = false) ∧
    (∀ f, resolveVoice dir vid = some f →
      listStarts vid f = true ∧
      ∃ pre suf, dir = pre ++ f :: suf ∧ ∀ g ∈ pre, listStarts vid g = false) ∧
    (∀ (outId text : List Char), pyStrip text ≠ [] → (pyStrip text).length ≤ 5000 →
      (∀ f ∈ dir, listStarts vid f = false) →
      generate dir outId text (some vid) =
        .ok ⟨outId, encodeName outId (mkPreview (pyStrip text)), none⟩) := by
  refine ⟨?_, ?_, ?_⟩
  · rw [resolveVoice, List.head?_eq_none_iff, List.filter_eq_nil_iff]
    constructor
    · intro h f hf
      simpa using h f hf
    · intro h f hf
      simp [h f hf]
  · intro f hf
    rw [resolveVoice, List.head?_eq_some_iff] at hf
    obtain ⟨ys, hys⟩ := hf
    rw [List.filter_eq_cons_iff] at hys
    obtain ⟨l1, l2, hdir, hl1, hpf, _⟩ := hys
    refine ⟨hpf, l1, l2, hdir, ?_⟩
    intro g hg
    simpa using hl1 g hg
  · intro outId text ht hlen hmiss
    have hres : resolveVoice dir vid = none := by
      rw [resolveVoice, List.head?_eq_none_iff, List.filter_eq_nil_iff]
      intro f hf
      simp [hmiss f hf]
    simp only [generate, if_neg ht, if_neg (not_lt.mpr hlen)]
    by_cases hv : vid = []
    · simp [hv]
    · simp [hv, hres]

/-! ## C10: download serves only files inside the artifact directory -/

lemma basenameChars_no_slash (s : List Char) :
    ∀ c ∈ basenameChars s, ¬ c = '/' := by
  intro c hc
  rw [basenameChars, List.mem_reverse] at hc
  have := List.mem_takeWhile_imp hc
  simpa using this

lemma normStep_normal (acc : List (List Char)) (c : List Char)
    (h : isNormalComp c = true) : normStep acc c = acc ++ [c] := by
  simp only [isNormalComp, Bool.and_eq_true, Bool.not_eq_eq_eq_not, Bool.not_true,
    decide_eq_false_iff_not] at h
  rw [normStep, if_neg (by tauto), if_neg (by tauto)]

lemma foldl_normStep : ∀ (l : List (List Char)),
    (∀ c ∈ l, isNormalComp c = true) →
    ∀ acc, List.foldl normStep acc l = acc ++ l := by
  intro l
  induction l with
  | nil => intro _ acc; simp
  | cons c cs ih =>
    intro h acc
    rw [List.foldl_cons, normStep_normal acc c (h c (by simp))]
    rw [ih (fun x hx => h x (by simp [hx])) (acc ++ [c])]
    simp

lemma normalizePath_append_one (genDir : FsPath) (b : List Char)
    (hgen : ∀ c ∈ genDir, isNormalComp c = true) :
    normalizePath (genDir ++ [b]) = normStep genDir b := by
  rw [normalizePath, List.foldl_append]
  rw [show List.foldl normStep [] genDir = [] ++ genDir from foldl_normStep genDir hgen []]
  rfl

/-- C10: the download route resolves only the basename inside the
generated-audio directory. If a file is served, its path is the directory
extended by one ordinary component (never outside it, whatever separators or
`".."` the request contains), and a 404 is returned whenever the resolved
path is not a file. -/
theorem c10_download_confined (fs : Fs) (genDir : FsPath) (filename : List Char)
    (hgen : ∀ c ∈ genDir, isNormalComp c = true)
    (hdir : genDir ∉ fs.fileNames)
    (hparent : genDir.dropLast ∉ fs.fileNames) :
    (∀ p, download fs genDir filename = .ok p →
      isNormalComp (basenameChars filename) = true ∧
      p = genDir ++ [basenameChars filename] ∧
      p ∈ fs.fileNames ∧
      ∀ c ∈ basenameChars filename, ¬ c = '/') ∧
    (normalizePath (genDir ++ [basenameChars filename]) ∉ fs.fileNames →
      download fs genDir filename = .error 404) := by
  constructor
  · intro p hp
    simp only [download] at hp
    rw [normalizePath_append_one genDir _ hgen] at hp
    by_cases hb : isNormalComp (basenameChars filename) = true
    · rw [normStep_normal genDir _ hb] at hp
      by_cases hmem : genDir ++ [basenameChars filename] ∈ fs.fileNames
      · rw [if_pos hmem] at hp
        have hpe : genDir ++ [basenameChars filename] = p := by
          simpa using hp
        exact ⟨hb, hpe.symm, hpe ▸ hmem, basenameChars_no_slash filename⟩
      · rw [if_neg hmem] at hp
        simp at hp
    · have hbc : basenameChars filename = [] ∨ basenameChars filename = ['.'] ∨
          basenameChars filename = ['.', '.'] := by
        by_contra hno
        push_neg at hno
        exact hb (by simp [isNormalComp, hno.1, hno.2.1, hno.2.2])
      have hcases : normStep genDir (basenameChars filename) = genDir ∨
          normStep genDir (basenameChars filename) = genDir.dropLast := by
        rcases hbc with h2 | h2 | h2
        · left; rw [h2, normStep, if_pos (Or.inl rfl)]
        · left; rw [h2, normStep, if_pos (Or.inr (by decide))]
        · right; rw [h2, normStep, if_neg (by decide), if_pos (by decide)]
      rcases hcases with h1 | h1 <;> rw [h1] at hp
      · rw [if_neg hdir] at hp
        simp at hp
      · rw [if_neg hparent] at hp
        simp at hp
  · intro hnot
    simp only [download]
    rw [if_neg hnot]

/-! ## C1: serialization of synthesis work -/

lemma takeFirst_fst (e : ℕ) : ∀ (l : List (ℕ × ℕ)) (x : ℕ × ℕ) (rest : List (ℕ × ℕ)),
    takeFirst e l = some (x, rest) → x.1 = e := by
  intro l
  induction l with
  | nil => intro x rest h; simp [takeFirst] at h
  | cons y ys ih =>
    intro x rest h
    rw [takeFirst] at h
    by_cases hy : y.1 = e
    · rw [if_pos hy] at h
      have hyx : y = x := congrArg Prod.fst (Option.some.inj h)
      rw [← hyx]
      exact hy
    · rw [if_neg hy] at h
      cases ht : takeFirst e ys with
      | none => rw [ht] at h; simp at h
      | some r =>
        rw [ht] at h
        simp only [Option.map] at h
        have hx : r.1 = x := congrArg Prod.fst (Option.some.inj h)
        exact hx ▸ ih r.1 r.2 ht

lemma applyAct_serialInv (s s2 : ExecState) (a : Act) (hs : serialInv s)
    (h : applyAct s a = some s2) : serialInv s2 := by
  cases a with
  | submit e t =>
    simp only [applyAct] at h
    have h2 := Option.some.inj h
    intro e2
    rw [← h2]
    exact hs e2
  | start e =>
    simp only [applyAct] at h
    by_cases hr : s.running.any (fun r => r.1 = e) = true
    · rw [if_pos hr] at h
      simp at h
    · rw [if_neg hr] at h
      cases ht : takeFirst e s.queued with
      | none => rw [ht] at h; simp at h
      | some r =>
        rw [ht] at h
        simp only [Option.map] at h
        have h2 := Option.some.inj h
        have hfst : r.1.1 = e := takeFirst_fst e s.queued r.1 r.2 ht
        intro e2
        rw [← h2]
        show (List.filter (fun x => (x.1 = e2 : Bool)) (s.running ++ [r.1])).length ≤ 1
        rw [List.filter_append]
        by_cases he2 : e2 = e
        · subst he2
          have hempty : List.filter (fun x => (x.1 = e2 : Bool)) s.running = [] := by
            rw [List.filter_eq_nil_iff]
            intro x hx hdec
            apply hr
            rw [List.any_eq_true]
            refine ⟨x, hx, ?_⟩
            simpa using hdec
          rw [hempty]
          simpa using List.length_filter_le (fun x => (x.1 = e2 : Bool)) [r.1]
        · have hone : List.filter (fun x => (x.1 = e2 : Bool)) [r.1] = [] := by
            rw [List.filter_eq_nil_iff]
            intro x hx hdec
            have hxr : x = r.1 := by simpa using hx
            apply he2
            have hx2 : x.1 = e2 := by simpa using hdec
            rw [← hx2, hxr, hfst]
          rw [hone, List.append_nil]
          exact hs e2
  | finish e t =>
    simp only [applyAct] at h
    by_cases hm : (e, t) ∈ s.running
    · rw [if_pos hm] at h
      have h2 := Option.some.inj h
      intro e2
      rw [← h2]
      show (List.filter (fun x => (x.1 = e2 : Bool))
        (s.running.filter (fun r => !(r = (e, t) : Bool)))).length ≤ 1
      calc (List.filter (fun x => (x.1 = e2 : Bool))
            (s.running.filter (fun r => !(r = (e, t) : Bool)))).length
          ≤ (List.filter (fun x => (x.1 = e2 : Bool)) s.running).length :=
            List.Sublist.length_le
              (List.Sublist.filter _ (List.filter_sublist s.running))
        _ ≤ 1 := hs e2
    · rw [if_neg hm] at h
      simp at h

lemma runActs_serialInv : ∀ (acts : List Act) (s s2 : ExecState), serialInv s →
    runActs s acts = some s2 → serialInv s2 := by
  intro acts
  induction acts with
  | nil =>
    intro s s2 hs h
    simp only [runActs] at h
    rw [← Option.some.inj h]
    exact hs
  | cons a as ih =>
    intro s s2 hs h
    simp only [runActs] at h
    cases ha : applyAct s a with
    | none => rw [ha] at h; simp at h
    | some s3 =>
      rw [ha] at h
      exact ih s3 s2 (applyAct_serialInv s s3 a hs ha) h

/-- C1, amended: synthesis work is serialized only per worker pool. In every
reachable scheduler state, each `ThreadPoolExecutor(max_workers=1)` has at
most one task running; the code gives each request its own fresh pool, so
this does not serialize distinct requests against each other. -/
theorem c1_per_pool_serial (acts : List Act) (s : ExecState) (e : ℕ)
    (h : runActs initExec acts = some s) :
    (runningOn s e).length ≤ 1 :=
  runActs_serialInv acts initExec s (fun e2 => by simp [runningOn, initExec]) h e

/-- C1 counterexample: submitting two requests the way the code does (each
to its own fresh size-1 pool) reaches a state in which the synthesis tasks
of both requests are running at the same time — their backend calls overlap,
refuting system-wide serialization. -/
theorem c1_counterexample :
    runActs initExec [codeSubmit 0, codeSubmit 1, Act.start 0, Act.start 1] =
      some ⟨[], [(0, 0), (1, 1)], []⟩ ∧
    (runningOn ⟨[], [(0, 0), (1, 1)], []⟩ 0).length = 1 ∧
    (runningOn ⟨[], [(0, 0), (1, 1)], []⟩ 1).length = 1 := by
  refine ⟨by decide, by decide, by decide⟩

/-- Witness: the per-pool bound at a concrete reachable state. -/
theorem c1_witness :
    (runningOn ⟨[], [(0, 0)], []⟩ 0).length ≤ 1 :=
  c1_per_pool_serial [codeSubmit 0, Act.start 0] ⟨[], [(0, 0)], []⟩ 0 (by decide)

/-- Witness: downloading `"a/../x"` from a one-file store serves only the
file directly inside the artifact directory. -/
theorem c10_witness :
    (∀ p, download ⟨[], [([['g'], ['x']], (0, []))]⟩ [['g']] ['a', '/', '.', '.', '/', 'x'] = .ok p →
      isNormalComp (basenameChars ['a', '/', '.', '.', '/', 'x']) = true ∧
      p = [['g']] ++ [basenameChars ['a', '/', '.', '.', '/', 'x']] ∧
      p ∈ Fs.fileNames ⟨[], [([['g'], ['x']], (0, []))]⟩ ∧
      ∀ c ∈ basenameChars ['a', '/', '.', '.', '/', 'x'], ¬ c = '/') ∧
    (normalizePath ([['g']] ++ [basenameChars ['a', '/', '.', '.', '/', 'x']]) ∉
        Fs.fileNames ⟨[], [([['g'], ['x']], (0, []))]⟩ →
      download ⟨[], [([['g'], ['x']], (0, []))]⟩ [['g']] ['a', '/', '.', '.', '/', 'x'] =
        .error 404) :=
  c10_download_confined ⟨[], [([['g'], ['x']], (0, []))]⟩ [['g']]
    ['a', '/', '.', '.', '/', 'x'] (by decide) (by decide) (by decide)

/-! ## C6: history listing -/

/-- C6: `list_history` returns an empty list when the artifact directory is
absent; otherwise it maps the selected files to items, keeps at most `limit`
of them, selects only regular files whose lowercased name ends in `".wav"`,
orders them by modification time newest first, stamps each with the
formatted modification time, and the `/history` route uses the default
limit 20. -/
theorem c6_list_history (iso : ℚ → List Char) (entries : List DirEntry) (limit : ℕ) :
    list_history iso none limit = [] ∧
    get_history iso (some entries) = list_history iso (some entries) 20 ∧
    (list_history iso (some entries) limit).length ≤ limit ∧
    list_history iso (some entries) limit = (historyFiles entries limit).map (mkItem iso) ∧
    List.Sorted (fun a b => b.mtime ≤ a.mtime) (historyFiles entries limit) ∧
    (∀ e ∈ historyFiles entries limit,
      e ∈ entries ∧ e.isFile = true ∧
      listEndsWith (e.name.map Char.toLower) ".wav".toList = true) ∧
    (∀ e, (mkItem iso e).timestamp = iso e.mtime) := by
  refine ⟨rfl, rfl, ?_, rfl, ?_, ?_, fun e => rfl⟩
  · rw [list_history]
    rw [List.length_map, historyFiles, List.length_take]
    exact inf_le_left
  · have htrans : ∀ a b c : DirEntry, newerEq a b = true → newerEq b c = true →
        newerEq a c = true := by
      intro a b c hab hbc
      rw [newerEq, decide_eq_true_iff] at *
      exact le_trans hbc hab
    have htotal : ∀ a b : DirEntry, (newerEq a b || newerEq b a) = true := by
      intro a b
      rcases le_total a.mtime b.mtime with h | h
      · simp [newerEq, h]
      · simp [newerEq, h]
    have hsorted := List.sorted_mergeSort htrans htotal (entries.filter wavFilter)
    have hprop : List.Pairwise (fun a b : DirEntry => b.mtime ≤ a.mtime)
        ((entries.filter wavFilter).mergeSort newerEq) := by
      refine hsorted.imp ?_
      intro a b hab
      rw [newerEq, decide_eq_true_iff] at hab
      exact hab
    exact hprop.sublist (List.take_sublist _ _)
  · intro e he
    have h1 : e ∈ (entries.filter wavFilter).mergeSort newerEq :=
      (List.take_sublist _ _).subset he
    have h2 : e ∈ entries.filter wavFilter :=
      (List.mergeSort_perm (entries.filter wavFilter) newerEq).mem_iff.mp h1
    have h3 := List.mem_filter.mp h2
    have h4 := h3.2
    rw [wavFilter, Bool.and_eq_true] at h4
    exact ⟨h3.1, h4.1, h4.2⟩

/-! ## C4: shape of the placeholder waveform -/

lemma pyInt_of_nonneg (q : ℚ) (h : 0 ≤ q) : pyInt q = ⌊q⌋ := if_pos h

lemma one_le_clampDur (L : ℕ) : 1 ≤ clampDur L :=
  le_min (le_max_right _ _) (by norm_num)

lemma clampDur_nonneg (L : ℕ) : 0 ≤ clampDur L :=
  le_trans zero_le_one (one_le_clampDur L)

lemma sampleCount_cast (sr : ℤ) (L : ℕ) (h : 0 ≤ sr) :
    (sampleCount sr L : ℤ) = ⌊(sr : ℚ) * clampDur L⌋ := by
  have hq : (0 : ℚ) ≤ (sr : ℚ) * clampDur L :=
    mul_nonneg (by exact_mod_cast h) (clampDur_nonneg L)
  rw [sampleCount, pyInt_of_nonneg _ hq]
  exact Int.toNat_of_nonneg (Int.floor_nonneg.mpr hq)

lemma le_sampleCount (sr : ℤ) (L : ℕ) (h : 0 ≤ sr) :
    sr ≤ (sampleCount sr L : ℤ) := by
  rw [sampleCount_cast sr L h]
  exact Int.le_floor.mpr (le_mul_of_one_le_right (by exact_mod_cast h) (one_le_clampDur L))

lemma fadeLen_cast (sr : ℤ) (h : 0 ≤ sr) :
    (fadeLen sr : ℤ) = ⌊(sr : ℚ) * (1 / 10)⌋ := by
  have hq : (0 : ℚ) ≤ (sr : ℚ) * (1 / 10) :=
    mul_nonneg (by exact_mod_cast h) (by norm_num)
  rw [fadeLen, pyInt_of_nonneg _ hq]
  exact Int.toNat_of_nonneg (Int.floor_nonneg.mpr hq)

lemma ten_mul_fadeLen_le (sr : ℤ) (h : 0 ≤ sr) : 10 * (fadeLen sr : ℤ) ≤ sr := by
  rw [fadeLen_cast sr h]
  have h2 : ((⌊(sr : ℚ) * (1 / 10)⌋ : ℚ)) ≤ (sr : ℚ) * (1 / 10) := Int.floor_le _
  have h3 : (10 : ℚ) * (⌊(sr : ℚ) * (1 / 10)⌋ : ℚ) ≤ (sr : ℚ) := by linarith
  exact_mod_cast h3

lemma one_le_fadeLen (sr : ℤ) (h : 10 ≤ sr) : 1 ≤ fadeLen sr := by
  have h0 : (0 : ℤ) ≤ sr := by omega
  have h1 : (1 : ℤ) ≤ (fadeLen sr : ℤ) := by
    rw [fadeLen_cast sr h0]
    apply Int.le_floor.mpr
    have h2 : (10 : ℚ) ≤ (sr : ℚ) := by exact_mod_cast h
    push_cast
    linarith
  exact_mod_cast h1

lemma length_baseWave (dur : ℚ) (n : ℕ) : (baseWave dur n).length = n := by
  rw [baseWave, List.length_map, List.length_range]

lemma length_linspace01 (fl : ℕ) : (linspace01 fl).length = fl := by
  rw [linspace01, List.length_map, List.length_range]

lemma baseWave_getD (dur : ℚ) (n i : ℕ) (h : i < n) :
    (baseWave dur n).getD i 0 = baseSample dur n i := by
  rw [baseWave, List.getD_eq_getElem _ _ (by simpa using h)]
  rw [List.getElem_map, List.getElem_range]

lemma linspace01_getD (fl j : ℕ) (h : j < fl) :
    (linspace01 fl).getD j 0 = fadeVal fl j := by
  rw [linspace01, List.getD_eq_getElem _ _ (by simpa using h)]
  rw [List.getElem_map, List.getElem_range]

lemma getD_append_left (as bs : List ℝ) (i : ℕ) (h : i < as.length) :
    (as ++ bs).getD i 0 = as.getD i 0 := by
  rw [List.getD_eq_getElem _ _ (by rw [List.length_append]; omega),
    List.getD_eq_getElem _ _ h]
  exact List.getElem_append_left h

lemma getD_append_right (as bs : List ℝ) (i : ℕ) (h : as.length ≤ i)
    (h2 : i < as.length + bs.length) :
    (as ++ bs).getD i 0 = bs.getD (i - as.length) 0 := by
  rw [List.getD_eq_getElem _ _ (by rw [List.length_append]; omega),
    List.getD_eq_getElem _ _ (by omega)]
  exact List.getElem_append_right h

lemma getD_zipWith_mul (l l' : List ℝ) (i : ℕ) (h : i < l.length) (h' : i < l'.length) :
    (List.zipWith (fun a b => a * b) l l').getD i 0 = l.getD i 0 * l'.getD i 0 := by
  rw [List.getD_eq_getElem _ _ (by rw [List.length_zipWith]; omega),
    List.getD_eq_getElem _ _ h, List.getD_eq_getElem _ _ h']
  exact List.getElem_zipWith

lemma getD_take (l : List ℝ) (j i : ℕ) (h : i < j) (h2 : i < l.length) :
    (l.take j).getD i 0 = l.getD i 0 := by
  rw [List.getD_eq_getElem _ _ (by rw [List.length_take]; omega),
    List.getD_eq_getElem _ _ h2]
  exact List.getElem_take _

lemma getD_drop (l : List ℝ) (i j : ℕ) (h : i + j < l.length) :
    (l.drop i).getD j 0 = l.getD (i + j) 0 := by
  rw [List.getD_eq_getElem _ _ (by rw [List.length_drop]; omega),
    List.getD_eq_getElem _ _ h]
  exact List.getElem_drop _

lemma getD_reverse (l : List ℝ) (i : ℕ) (h : i < l.length) :
    l.reverse.getD i 0 = l.getD (l.length - 1 - i) 0 := by
  rw [List.getD_eq_getElem _ _ (by rw [List.length_reverse]; omega),
    List.getD_eq_getElem _ _ (by omega)]
  exact List.getElem_reverse _

lemma mulSliceVals_of_eq (t f : List ℝ) (h : t.length = f.length) :
    mulSliceVals t f = some (List.zipWith (fun a b => a * b) t f) := by
  rw [mulSliceVals, if_pos h]

lemma fadeInWave_length (base fade : List ℝ) (fl : ℕ) (hf : fade.length = fl)
    (hle : fl ≤ base.length) :
    (fadeInWave base fade fl).length = base.length := by
  rw [fadeInWave, List.length_append, List.length_zipWith, List.length_take, hf,
    List.length_drop, min_eq_left hle, min_self]
  omega

lemma applyFadeIn_of_le (w fade : List ℝ) (fl : ℕ) (hf : fade.length = fl)
    (hle : fl ≤ w.length) :
    applyFadeIn w fade fl = some (fadeInWave w fade fl) := by
  rw [applyFadeIn,
    mulSliceVals_of_eq _ _ (by rw [List.length_take, hf]; exact min_eq_left hle)]
  rfl

lemma applyFadeOut_of (w fade : List ℝ) (fl : ℕ) (hf : fade.length = fl)
    (h1 : 1 ≤ fl) (hle : fl ≤ w.length) :
    applyFadeOut w fade fl =
      some (w.take (w.length - fl) ++
        List.zipWith (fun a b => a * b) (w.drop (w.length - fl)) fade.reverse) := by
  have hfl0 : ¬ fl = 0 := by omega
  simp only [applyFadeOut, if_neg hfl0]
  rw [mulSliceVals_of_eq _ _
    (by rw [List.length_drop, List.length_reverse, hf]; omega)]
  rfl

lemma fadeInWave_getD (base fade : List ℝ) (fl : ℕ) (hf : fade.length = fl)
    (hle : fl ≤ base.length) (i : ℕ) (hi : i < base.length) :
    (fadeInWave base fade fl).getD i 0 =
      if i < fl then base.getD i 0 * fade.getD i 0 else base.getD i 0 := by
  have hzlen : (List.zipWith (fun a b : ℝ => a * b) (base.take fl) fade).length = fl := by
    rw [List.length_zipWith, List.length_take, hf, min_eq_left hle, min_self]
  by_cases hifl : i < fl
  · rw [if_pos hifl, fadeInWave, getD_append_left _ _ _ (by omega)]
    rw [getD_zipWith_mul _ _ _ (by rw [List.length_take]; omega) (by omega)]
    rw [getD_take _ _ _ hifl hi]
  · rw [if_neg hifl, fadeInWave, getD_append_right _ _ _ (by omega)
      (by rw [List.length_drop]; omega)]
    rw [hzlen, getD_drop _ _ _ (by omega)]
    congr 1
    omega

lemma fadedWave_length (base fade : List ℝ) (fl : ℕ) (hf : fade.length = fl)
    (h1 : 1 ≤ fl) (h2 : 2 * fl ≤ base.length) :
    (fadedWave base fade fl).length = base.length := by
  have hle : fl ≤ base.length := by omega
  have hw1 : (fadeInWave base fade fl).length = base.length :=
    fadeInWave_length base fade fl hf hle
  rw [fadedWave, List.length_append, List.length_take, List.length_zipWith,
    List.length_drop, List.length_reverse, hf, hw1]
  omega

lemma fadedWave_getD (base fade : List ℝ) (fl : ℕ) (hf : fade.length = fl)
    (h1 : 1 ≤ fl) (h2 : 2 * fl ≤ base.length) (i : ℕ) (hi : i < base.length) :
    (fadedWave base fade fl).getD i 0 =
      (if i < fl then base.getD i 0 * fade.getD i 0
       else if base.length - fl ≤ i then base.getD i 0 * fade.getD (base.length - 1 - i) 0
       else base.getD i 0) := by
  have hle : fl ≤ base.length := by omega
  have hw1 : (fadeInWave base fade fl).length = base.length :=
    fadeInWave_length base fade fl hf hle
  have hrw : fadedWave base fade fl =
      (fadeInWave base fade fl).take (base.length - fl) ++
        List.zipWith (fun a b => a * b)
          ((fadeInWave base fade fl).drop (base.length - fl)) fade.reverse := by
    rw [fadedWave, hw1]
  have htake : ((fadeInWave base fade fl).take (base.length - fl)).length =
      base.length - fl := by
    rw [List.length_take, hw1]
    omega
  have hdrop : ((fadeInWave base fade fl).drop (base.length - fl)).length = fl := by
    rw [List.length_drop, hw1]
    omega
  have hzip2 : (List.zipWith (fun a b : ℝ => a * b)
      ((fadeInWave base fade fl).drop (base.length - fl)) fade.reverse).length = fl := by
    rw [List.length_zipWith, hdrop, List.length_reverse, hf, min_self]
  by_cases hlow : i < base.length - fl
  · rw [hrw, getD_append_left _ _ _ (by rw [htake]; omega)]
    rw [getD_take _ _ _ hlow (by rw [hw1]; omega)]
    rw [fadeInWave_getD base fade fl hf hle i hi]
    by_cases hifl : i < fl
    · rw [if_pos hifl, if_pos hifl]
    · rw [if_neg hifl, if_neg hifl, if_neg (by omega)]
  · rw [hrw, getD_append_right _ _ _ (by rw [htake]; omega)
      (by rw [htake, hzip2]; omega)]
    rw [htake]
    rw [getD_zipWith_mul _ _ _ (by rw [hdrop]; omega)
      (by rw [List.length_reverse, hf]; omega)]
    rw [getD_drop _ _ _ (by rw [hw1]; omega)]
    rw [getD_reverse _ _ (by rw [hf]; omega), hf]
    have hidx : base.length - fl + (i - (base.length - fl)) = i := by omega
    rw [hidx]
    rw [fadeInWave_getD base fade fl hf hle i hi]
    rw [if_neg (show ¬ i < fl by omega), if_neg (show ¬ i < fl by omega),
      if_pos (show base.length - fl ≤ i by omega)]
    congr 2
    omega

/-- The placeholder synthesis succeeds for `sample_rate ≥ 10` and produces
exactly the clamped duration and the doubly-faded sine wave. -/
lemma synthPlaceholder_spec (text : List Char) (cfg : GenerationConfig)
    (h : 10 ≤ cfg.sample_rate) :
    synthPlaceholder text cfg =
      some ⟨clampDur text.length, cfg.sample_rate,
        fadedWave
          (baseWave (clampDur text.length) (sampleCount cfg.sample_rate text.length))
          (linspace01 (fadeLen cfg.sample_rate)) (fadeLen cfg.sample_rate)⟩ := by
  have h0 : (0 : ℤ) ≤ cfg.sample_rate := by omega
  have hq : (0 : ℚ) ≤ (cfg.sample_rate : ℚ) * clampDur text.length :=
    mul_nonneg (by exact_mod_cast h0) (clampDur_nonneg _)
  have hnneg : ¬ pyInt ((cfg.sample_rate : ℚ) * clampDur text.length) < 0 := by
    rw [pyInt_of_nonneg _ hq]
    have := Int.floor_nonneg.mpr hq
    omega
  have hfl1 : 1 ≤ fadeLen cfg.sample_rate := one_le_fadeLen _ h
  have h2fl : 2 * fadeLen cfg.sample_rate ≤ sampleCount cfg.sample_rate text.length := by
    have ha := ten_mul_fadeLen_le cfg.sample_rate h0
    have hb := le_sampleCount cfg.sample_rate text.length h0
    omega
  have hfln : fadeLen cfg.sample_rate ≤ sampleCount cfg.sample_rate text.length := by
    omega
  simp only [synthPlaceholder]
  rw [if_neg hnneg]
  rw [applyFadeIn_of_le _ _ _ (length_linspace01 _)
    (by rw [length_baseWave]; exact hfln)]
  rw [Option.some_bind]
  rw [applyFadeOut_of _ _ _ (length_linspace01 _) hfl1
    (by rw [fadeInWave_length _ _ _ (length_linspace01 _) (by rw [length_baseWave]; exact hfln),
      length_baseWave]; exact hfln)]
  rfl

/-- C4, amended: for every text and every config whose sample rate is at
least 10 (so the 0.1 s fade ramp has at least one sample), the placeholder
waveform's duration is exactly `clamp(0.1·L, 1.0, 10.0)` seconds and it has
`int(sample_rate · duration)` samples, each the 0.15-amplitude 440 Hz sine
value scaled by the linear fade-in and fade-out ramps. -/
theorem c4_placeholder_waveform (text : List Char) (cfg : GenerationConfig)
    (h : 10 ≤ cfg.sample_rate) :
    ∃ res, synthPlaceholder text cfg = some res ∧
      res.duration = clampDur text.length ∧
      res.sampleRate = cfg.sample_rate ∧
      res.samples.length = sampleCount cfg.sample_rate text.length ∧
      ∀ i, i < res.samples.length →
        res.samples.getD i 0 =
          placeholderSampleFormula (clampDur text.length)
            (sampleCount cfg.sample_rate text.length) (fadeLen cfg.sample_rate) i := by
  have h0 : (0 : ℤ) ≤ cfg.sample_rate := by omega
  have hfl1 : 1 ≤ fadeLen cfg.sample_rate := one_le_fadeLen _ h
  have h2fl : 2 * fadeLen cfg.sample_rate ≤ sampleCount cfg.sample_rate text.length := by
    have ha := ten_mul_fadeLen_le cfg.sample_rate h0
    have hb := le_sampleCount cfg.sample_rate text.length h0
    omega
  have hlenB : (baseWave (clampDur text.length)
      (sampleCount cfg.sample_rate text.length)).length =
      sampleCount cfg.sample_rate text.length := length_baseWave _ _
  have hwlen : (fadedWave
      (baseWave (clampDur text.length) (sampleCount cfg.sample_rate text.length))
      (linspace01 (fadeLen cfg.sample_rate)) (fadeLen cfg.sample_rate)).length =
      sampleCount cfg.sample_rate text.length := by
    rw [fadedWave_length _ _ _ (length_linspace01 _) hfl1 (by rw [hlenB]; exact h2fl)]
    exact hlenB
  refine ⟨_, synthPlaceholder_spec text cfg h, rfl, rfl, hwlen, ?_⟩
  intro i hi
  rw [hwlen] at hi
  show (fadedWave _ _ _).getD i 0 = _
  rw [fadedWave_getD _ _ _ (length_linspace01 _) hfl1 (by rw [hlenB]; exact h2fl) i
    (by rw [hlenB]; exact hi)]
  rw [hlenB, placeholderSampleFormula]
  by_cases hc1 : i < fadeLen cfg.sample_rate
  · rw [if_pos hc1, if_pos hc1]
    rw [baseWave_getD _ _ _ (by omega), linspace01_getD _ _ hc1]
  · rw [if_neg hc1, if_neg hc1]
    by_cases hc2 : sampleCount cfg.sample_rate text.length - fadeLen cfg.sample_rate ≤ i
    · rw [if_pos hc2, if_pos hc2]
      rw [baseWave_getD _ _ _ (by omega), linspace01_getD _ _ (by omega)]
    · rw [if_neg hc2, if_neg hc2]
      rw [baseWave_getD _ _ _ (by omega)]

/-- C4 counterexample: with `sample_rate = 9` (a valid positive rate) and the
one-character text, the fade ramp is empty (`int(0.1·9) = 0`), Python's
`waveform[-0:]` selects the whole 9-sample array, and the in-place multiply
by the empty ramp is a numpy broadcast error: the code raises instead of
producing the `int(9·1.0) = 9`-sample waveform the claim promises. -/
theorem c4_counterexample :
    synthPlaceholder ['a'] cfg9 = none ∧ sampleCount 9 1 = 9 := by
  have e1 : clampDur 1 = 1 := by
    rw [clampDur, max_eq_right (by norm_num), min_eq_left (by norm_num)]
  have e2 : pyInt (((9 : ℤ) : ℚ) * clampDur 1) = 9 := by
    rw [e1, pyInt, if_pos (by norm_num)]
    norm_num
  have e3 : fadeLen 9 = 0 := by
    rw [fadeLen, pyInt, if_pos (by norm_num)]
    norm_num
  have hsr : cfg9.sample_rate = 9 := rfl
  have hlen : (['a'] : List Char).length = 1 := rfl
  constructor
  · have hin : applyFadeIn (baseWave 1 9) (linspace01 0) 0 = some (baseWave 1 9) := by
      simp [applyFadeIn, mulSliceVals, linspace01]
    have hout : applyFadeOut (baseWave 1 9) (linspace01 0) 0 = none := by
      have hb : (baseWave 1 9).length = 9 := length_baseWave 1 9
      simp [applyFadeOut, mulSliceVals, linspace01, hb]
    have hpy : pyInt (((9 : ℤ) : ℚ) * 1) = 9 := by
      rw [pyInt, if_pos (by norm_num)]
      norm_num
    simp only [synthPlaceholder, hsr, hlen, e1, e3, hpy]
    rw [if_neg (by norm_num : ¬ (9 : ℤ) < 0)]
    rw [show ((9 : ℤ)).toNat = 9 from rfl]
    rw [hin, Option.some_bind, hout]
    rfl
  · rw [sampleCount, e2]
    rfl

/-- Witness: the amended waveform shape at the text `"hi"` and a config with
sample rate 10. -/
theorem c4_witness :
    ∃ res, synthPlaceholder ['h', 'i'] cfg10 = some res ∧
      res.duration = clampDur (['h', 'i'] : List Char).length ∧
      res.sampleRate = cfg10.sample_rate ∧
      res.samples.length = sampleCount cfg10.sample_rate (['h', 'i'] : List Char).length ∧
      ∀ i, i < res.samples.length →
        res.samples.getD i 0 =
          placeholderSampleFormula (clampDur (['h', 'i'] : List Char).length)
            (sampleCount cfg10.sample_rate (['h', 'i'] : List Char).length)
            (fadeLen cfg10.sample_rate) i :=
  c4_placeholder_waveform ['h', 'i'] cfg10 (by decide)

/-! ## C2 and C5: persistence behaviour of the placeholder path -/

lemma filter_put_self (files : List (FsPath × WavData)) (p : FsPath) :
    List.filter (fun e => (e.1 = p : Bool))
      (files.filter (fun e => !(e.1 = p : Bool))) = [] := by
  rw [List.filter_filter, List.filter_eq_nil_iff]
  intro a _
  by_cases h : a.1 = p <;> simp [h]

lemma Fs.get_put_self (fs : Fs) (p : FsPath) (d : WavData) :
    (fs.put p d).get p = some d := by
  rw [Fs.put, Fs.get]
  show (List.filter (fun e => (e.1 = p : Bool))
      ((fs.files.filter (fun e => !(e.1 = p : Bool))) ++ [(p, d)])).head?.map Prod.snd = _
  rw [List.filter_append, filter_put_self]
  simp

lemma Fs.get_put_ne (fs : Fs) (p : FsPath) (d : WavData) (q : FsPath) (hne : q ≠ p) :
    (fs.put p d).get q = fs.get q := by
  rw [Fs.put, Fs.get, Fs.get]
  show (List.filter (fun e => (e.1 = q : Bool))
      ((fs.files.filter (fun e => !(e.1 = p : Bool))) ++ [(p, d)])).head?.map Prod.snd = _
  rw [List.filter_append, List.filter_filter]
  have h1 : List.filter (fun e : FsPath × WavData => (e.1 = q : Bool) && !(e.1 = p : Bool))
      fs.files = List.filter (fun e => (e.1 = q : Bool)) fs.files := by
    apply List.filter_congr
    intro x _
    by_cases hx : x.1 = q
    · simp [hx, hne]
    · simp [hx]
  have h2 : List.filter (fun e : FsPath × WavData => (e.1 = q : Bool)) [(p, d)] = [] := by
    simp [hne.symm]
  rw [h1, h2, List.append_nil]

lemma mem_fileNames_put (fs : Fs) (p : FsPath) (d : WavData) :
    p ∈ (fs.put p d).fileNames := by
  rw [Fs.fileNames, Fs.put]
  show p ∈ ((fs.files.filter (fun e => !(e.1 = p : Bool))) ++ [(p, d)]).map Prod.fst
  rw [List.map_append]
  exact List.mem_append_right _ (by simp)

/-- C2, amended: the code writes the waveform directly at the final output
path (creating the parent directory first, no temp file and no rename), so a
persistence failure after `k` samples leaves a partial artifact file at the
output path while the call reports failure; only a synthesis failure before
the write begins leaves the filesystem untouched. -/
theorem c2_direct_write (text : List Char) (cfg : GenerationConfig) (p : FsPath)
    (fs : Fs) (k : ℕ) (h : 10 ≤ cfg.sample_rate) :
    ∃ w, synthPlaceholder text cfg = some ⟨clampDur text.length, cfg.sample_rate, w⟩ ∧
      generatePlaceholderSyncFs text cfg p fs (.failAt k) =
        ((fs.mkdir p.dropLast).put p (cfg.sample_rate, w.take k), false) ∧
      p ∈ ((fs.mkdir p.dropLast).put p (cfg.sample_rate, w.take k)).fileNames ∧
      ∀ (text2 : List Char) (cfg2 : GenerationConfig) (o : WriteOutcome),
        synthPlaceholder text2 cfg2 = none →
        generatePlaceholderSyncFs text2 cfg2 p fs o = (fs, false) := by
  refine ⟨_, synthPlaceholder_spec text cfg h, ?_, ?_, ?_⟩
  · rw [generatePlaceholderSyncFs, synthPlaceholder_spec text cfg h]
    rfl
  · exact mem_fileNames_put _ _ _
  · intro text2 cfg2 o h2
    rw [generatePlaceholderSyncFs, h2]

/-- C2 counterexample: a write that fails after 0 samples still leaves an
artifact file at the output path (the file was created before the data was
streamed), refuting "a file exists at the output path only if writing it
completed successfully". -/
theorem c2_counterexample :
    (generatePlaceholderSyncFs ['a'] cfg10 path1 emptyFs (.failAt 0)).2 = false ∧
    path1 ∈ (generatePlaceholderSyncFs ['a'] cfg10 path1 emptyFs (.failAt 0)).1.fileNames ∧
    emptyFs.fileNames = [] := by
  have hs := synthPlaceholder_spec ['a'] cfg10 (by decide)
  refine ⟨?_, ?_, rfl⟩
  · rw [generatePlaceholderSyncFs, hs]
    rfl
  · rw [generatePlaceholderSyncFs, hs]
    exact mem_fileNames_put _ _ _

/-- Witness for the amended C2 statement at a concrete failing write. -/
theorem c2_witness :
    ∃ w, synthPlaceholder ['a'] cfg10 =
        some ⟨clampDur (['a'] : List Char).length, cfg10.sample_rate, w⟩ ∧
      generatePlaceholderSyncFs ['a'] cfg10 path1 emptyFs (.failAt 0) =
        ((emptyFs.mkdir path1.dropLast).put path1 (cfg10.sample_rate, w.take 0), false) ∧
      path1 ∈ ((emptyFs.mkdir path1.dropLast).put path1
        (cfg10.sample_rate, w.take 0)).fileNames ∧
      ∀ (text2 : List Char) (cfg2 : GenerationConfig) (o : WriteOutcome),
        synthPlaceholder text2 cfg2 = none →
        generatePlaceholderSyncFs text2 cfg2 path1 emptyFs o = (emptyFs, false) :=
  c2_direct_write ['a'] cfg10 path1 emptyFs 0 (by decide)

/-- C5, amended: the placeholder waveform itself is a deterministic pure
function of the text and config (no randomness), but
`_generate_placeholder_sync` persists the result itself: it creates the
parent directory and writes the WAV file at the output path; apart from that
directory entry and that one file the filesystem is unchanged. -/
theorem c5_synthesizer_persists (text : List Char) (cfg : GenerationConfig)
    (p : FsPath) (fs : Fs) (h : 10 ≤ cfg.sample_rate) :
    ∃ w, synthPlaceholder text cfg = some ⟨clampDur text.length, cfg.sample_rate, w⟩ ∧
      generatePlaceholderSyncFs text cfg p fs .ok =
        ((fs.mkdir p.dropLast).put p (cfg.sample_rate, w), true) ∧
      ((fs.mkdir p.dropLast).put p (cfg.sample_rate, w)).get p =
        some (cfg.sample_rate, w) ∧
      ∀ q, q ≠ p → ((fs.mkdir p.dropLast).put p (cfg.sample_rate, w)).get q =
        (fs.mkdir p.dropLast).get q := by
  refine ⟨_, synthPlaceholder_spec text cfg h, ?_, ?_, ?_⟩
  · rw [generatePlaceholderSyncFs, synthPlaceholder_spec text cfg h]
    rfl
  · exact Fs.get_put_self _ _ _
  · intro q hq
    exact Fs.get_put_ne _ _ _ _ hq

/-- C5 counterexample: calling the synthesizer on the empty filesystem
creates the parent directory and the artifact file — the synthesizer itself
performs the I/O, refuting "persisting the result is done by the caller, not
by the synthesizer". -/
theorem c5_counterexample :
    (generatePlaceholderSyncFs ['a'] cfg10 path1 emptyFs .ok).1.fileNames = [path1] ∧
    (generatePlaceholderSyncFs ['a'] cfg10 path1 emptyFs .ok).1.dirs = [path1.dropLast] ∧
    emptyFs.fileNames = [] ∧ emptyFs.dirs = [] := by
  have hs := synthPlaceholder_spec ['a'] cfg10 (by decide)
  refine ⟨?_, ?_, rfl, rfl⟩
  · rw [generatePlaceholderSyncFs, hs]
    rfl
  · rw [generatePlaceholderSyncFs, hs]
    rfl

/-- Witness for the amended C5 statement at a concrete successful run. -/
theorem c5_witness :
    ∃ w, synthPlaceholder ['a'] cfg10 =
        some ⟨clampDur (['a'] : List Char).length, cfg10.sample_rate, w⟩ ∧
      generatePlaceholderSyncFs ['a'] cfg10 path1 emptyFs .ok =
        ((emptyFs.mkdir path1.dropLast).put path1 (cfg10.sample_rate, w), true) ∧
      ((emptyFs.mkdir path1.dropLast).put path1 (cfg10.sample_rate, w)).get path1 =
        some (cfg10.sample_rate, w) ∧
      ∀ q, q ≠ path1 →
        ((emptyFs.mkdir path1.dropLast).put path1 (cfg10.sample_rate, w)).get q =
          (emptyFs.mkdir path1.dropLast).get q :=
  c5_synthesizer_persists ['a'] cfg10 path1 emptyFs (by decide)

end VoiceGen
